import Mathlib

/-!
Verification of the book-recommendation core: preference-profile extraction,
candidate retrieval with fallback and failure tolerance, and the
scoring/deduplication/ranking engine (app/recommender.py, app/google_books.py).

Python strings are modelled as lists of characters, Python floats as rationals,
Python dict/Counter as insertion-ordered association lists, and the external
search provider as an explicit outcome environment; exceptions are modelled
with Except.
-/

/-- A Python string, as a list of characters. -/
abbrev Str := List Char

/-- Coerce a Lean string literal to the Str model. -/
def str (s : String) : Str := s.data

/-- Python str.lower on one character (ASCII case mapping). -/
def lowerChar (c : Char) : Char := c.toLower

/-- Python s.lower(). -/
def pyLower (s : Str) : Str := s.map lowerChar

/-- Python substring containment `needle in hay` (the empty string is contained
in every string). -/
def pyIn (needle hay : Str) : Bool := hay.tails.any (fun t => needle.isPrefixOf t)

/-- One stored rating document, as read back from the ratings collection.
`rating` is `none` when the document lacks a rating field (`r.get("rating", 0)`
then yields 0); `categories`/`authors` are `none` when the key is absent. -/
structure RatingRecord where
  user_id : Str
  book_id : Str
  rating : Option Rat
  categories : Option (List Str)
  authors : Option (List Str)
deriving DecidableEq

/-- A normalized book dict as produced by normalize_book: `book_id` is
`item.get("id")` and may be `none`; author/category entries may themselves be
null (the scoring loop guards with `(c or "")`). -/
structure Book where
  book_id : Option Str
  title : Option Str
  authors : List (Option Str)
  categories : List (Option Str)
deriving DecidableEq

/-- The volumeInfo sub-object of a raw Google Books item. -/
structure VolumeInfo where
  title : Option Str
  authors : Option (List (Option Str))
  categories : Option (List (Option Str))
deriving DecidableEq

/-- A raw item of the provider response. -/
structure RawVolume where
  id : Option Str
  volumeInfo : Option VolumeInfo
deriving DecidableEq

/-- normalize_book: pick fields out of the raw item with defaults. -/
def normalize_book (item : RawVolume) : Book :=
  let v := item.volumeInfo.getD ⟨none, none, none⟩
  { book_id := item.id
    title := v.title
    authors := v.authors.getD []
    categories := v.categories.getD [] }

/-- Python `counter[k] += v`: an update keeps the key's position, a missing key
(defaulting to 0) is appended at the end — Counter/dict preserve insertion
order. -/
def cntAdd : List (Str × Rat) → Str → Rat → List (Str × Rat)
  | [], k, v => [(k, v)]
  | (k', v') :: rest, k, v =>
    if k' = k then (k', v' + v) :: rest else (k', v') :: cntAdd rest k v

/-- Lookup in the association-list model of a Counter. -/
def cntLookup : List (Str × Rat) → Str → Option Rat
  | [], _ => none
  | (k', v') :: rest, k => if k' = k then some v' else cntLookup rest k

/-- The stream of (lower-cased genre, weight) increments that the ratings loop
of get_user_top_genres_and_authors applies to genre_counts, in program order:
records in cursor order, and for a record passing the
`"categories" in r and r["categories"]` guard, its category strings in list
order, each contributing `r.get("rating", 0)`. -/
def genreStream (recs : List RatingRecord) : List (Str × Rat) :=
  recs.flatMap (fun r =>
    match r.categories with
    | none => []
    | some gs => gs.map (fun g => (pyLower g, r.rating.getD 0)))

/-- The same stream for the authors dimension. -/
def authorStream (recs : List RatingRecord) : List (Str × Rat) :=
  recs.flatMap (fun r =>
    match r.authors with
    | none => []
    | some as0 => as0.map (fun a => (pyLower a, r.rating.getD 0)))

/-- Replay a stream of increments against an empty Counter. -/
def buildCounter (s : List (Str × Rat)) : List (Str × Rat) :=
  s.foldl (fun c p => cntAdd c p.1 p.2) []

/-- Counter.most_common(n): heapq.nlargest over the items, i.e. a stable sort
by weight descending followed by take n (ties keep insertion order). -/
def mostCommon (c : List (Str × Rat)) (n : Nat) : List (Str × Rat) :=
  (c.mergeSort (fun a b => decide (b.2 ≤ a.2))).take n

/-- get_user_top_genres_and_authors on the user's rating documents: the keys of
the top `top_n` Counter entries for each dimension. -/
def getUserTopGenresAndAuthors (recs : List RatingRecord) (top_n : Nat) :
    List Str × List Str :=
  ((mostCommon (buildCounter (genreStream recs)) top_n).map (fun p => p.1),
   (mostCommon (buildCounter (authorStream recs)) top_n).map (fun p => p.1))

/-- `(c or "").lower()` on a possibly-null string. -/
def orEmptyLower (c : Option Str) : Str := pyLower (c.getD [])

/-- The scoring loop body of recommend_for_user for one surviving candidate:
base 1.0, +2.0 per profile genre that is a substring of some lower-cased
category, +2.5 per profile author likewise, +0.5 when the book id is not among
the already-rated ids. -/
def scoreBook (top_genres top_authors rated_ids : List Str) (b : Book) : Rat :=
  let s1 := top_genres.foldl
    (fun s g => if b.categories.any (fun c => pyIn g (orEmptyLower c)) then s + 2 else s) 1
  let s2 := top_authors.foldl
    (fun s a => if b.authors.any (fun x => pyIn a (orEmptyLower x)) then s + 5/2 else s) s1
  if b.book_id.getD [] ∈ rated_ids then s2 else s2 + 1/2

/-- One entry of the `scored` dict: key, score, and the kept book dict. -/
structure ScoredEntry where
  bid : Str
  score : Rat
  book : Book
deriving DecidableEq

/-- `scored[bid] = {"score": score, "book": b}` guarded by
`bid not in scored or score > scored[bid]["score"]`: replace in place only on a
strictly greater score, append a fresh key at the end. -/
def insertScored : List ScoredEntry → Str → Rat → Book → List ScoredEntry
  | [], bid, sc, b => [⟨bid, sc, b⟩]
  | e :: rest, bid, sc, b =>
    if e.bid = bid then
      (if sc > e.score then ⟨bid, sc, b⟩ :: rest else e :: rest)
    else e :: insertScored rest bid sc b

/-- `if not bid: continue` — the candidate's id when it is present and
non-empty, `none` when the candidate must be dropped. -/
def validBid (b : Book) : Option Str :=
  match b.book_id with
  | none => none
  | some s => if s = [] then none else some s

/-- The scoring-and-deduplication loop over the flattened candidate pool. -/
def buildScored (top_genres top_authors rated_ids : List Str)
    (flat : List Book) : List ScoredEntry :=
  flat.foldl (fun scored b =>
    match validBid b with
    | none => scored
    | some bid => insertScored scored bid (scoreBook top_genres top_authors rated_ids b) b) []

/-- Python `sorted(scored.values(), key=lambda x: x["score"], reverse=True)`:
a stable sort by score descending. -/
def rankEntries (entries : List ScoredEntry) : List ScoredEntry :=
  entries.mergeSort (fun x y => decide (y.score ≤ x.score))

/-- Python list slicing l[:n], including the negative-n case. -/
def pySliceTo (l : List α) (n : Int) : List α :=
  if 0 ≤ n then l.take n.toNat else l.take (l.length - (-n).toNat)

/-- Steps 3 and 4 of recommend_for_user (score, deduplicate, sort, truncate,
project the book dicts): the RankCandidates engine of the spec. -/
def rankCandidates (top_genres top_authors rated_ids : List Str)
    (flat : List Book) (limit : Int) : List Book :=
  (pySliceTo (rankEntries (buildScored top_genres top_authors rated_ids flat)) limit).map
    (fun e => e.book)

/-- A Google Books query: the q parameter and maxResults. -/
structure SearchQuery where
  q : Str
  maxResults : Nat
deriving DecidableEq

/-- The body of a provider response that passed raise_for_status: either a JSON
object (its "items" key already extracted, defaulting to []), or a body on
which r.json()/data.get raises (not an httpx.HTTPError). -/
inductive ProviderBody where
  | malformed
  | wellFormed (items : List RawVolume)
deriving DecidableEq

/-- The outcome of one provider round trip: `raised` covers every
httpx.HTTPError (connection failure, timeout, raise_for_status on a bad
status); otherwise the provider responded with a body. -/
inductive ProviderOutcome where
  | raised
  | responded (body : ProviderBody)
deriving DecidableEq

/-- An exception escaping the Python code. -/
inductive PyError where
  | jsonError
deriving DecidableEq

/-- search_books_by_keywords: the try block catches httpx.HTTPError and returns
[], so every failure raised by the provider yields the empty list; a 2xx
response whose body is not a JSON object raises past the except clause. -/
def search_books_by_keywords (outcome : ProviderOutcome) : Except PyError (List Book) :=
  match outcome with
  | .raised => .ok []
  | .responded .malformed => .error .jsonError
  | .responded (.wellFormed items) => .ok (items.map normalize_book)

/-- search_books_by_genre builds q = "subject:" + genre. -/
def genreQuery (genre : Str) (maxResults : Nat) : SearchQuery :=
  ⟨str "subject:" ++ genre, maxResults⟩

/-- search_books_by_author builds q = "inauthor:" + author. -/
def authorQuery (author : Str) (maxResults : Nat) : SearchQuery :=
  ⟨str "inauthor:" ++ author, maxResults⟩

/-- Step 2 of recommend_for_user: one genre query per top genre and one author
query per top author, each capped at 10; when that list is empty, the two
fallback queries (fiction/nonfiction, capped at 15) are used instead. -/
def buildQueries (top_genres top_authors : List Str) : List SearchQuery :=
  let tasks := top_genres.map (fun g => genreQuery g 10) ++
    top_authors.map (fun a => authorQuery a 10)
  if tasks = [] then [genreQuery (str "fiction") 15, genreQuery (str "nonfiction") 15]
  else tasks

/-- The query list recommend_for_user issues for a user, given the full rating
store. -/
def issuedQueries (ratings : List RatingRecord) (user_id : Str) : List SearchQuery :=
  let userRatings := ratings.filter (fun r => decide (r.user_id = user_id))
  let p := getUserTopGenresAndAuthors userRatings 3
  buildQueries p.1 p.2

/-- recommend_for_user: `ratings` is the whole ratings collection (both cursors
filter it by user_id), `env` maps each issued query to its provider outcome.
asyncio.gather with the default return_exceptions propagates the first uncaught
exception of the batch; otherwise all per-query lists are concatenated in task
order. No validation of user_id or limit is performed. -/
def recommend_for_user (ratings : List RatingRecord) (env : SearchQuery → ProviderOutcome)
    (user_id : Str) (limit : Int) : Except PyError (List Book) := do
  let userRatings := ratings.filter (fun r => decide (r.user_id = user_id))
  let p := getUserTopGenresAndAuthors userRatings 3
  let queries := buildQueries p.1 p.2
  let results ← queries.mapM (fun qy => search_books_by_keywords (env qy))
  let flat := results.flatten
  let rated_ids := userRatings.map (fun r => r.book_id)
  pure (rankCandidates p.1 p.2 rated_ids flat limit)

/-- The loop `for x in l: if p(x): s += c` in closed form. -/
theorem foldl_cond_add (p : α → Bool) (c : Rat) (l : List α) (s0 : Rat) :
    l.foldl (fun s x => if p x then s + c else s) s0 = s0 + c * (l.countP p : Rat) := by
  induction l generalizing s0 with
  | nil => simp
  | cons x t ih =>
    simp only [List.foldl_cons, List.countP_cons, ih]
    split <;> push_cast <;> ring

/-- The claim's matching predicate: `g` is a case-insensitive substring of at
least one entry of `cs` (null entries read as the empty string). -/
def ciMatch (g : Str) (cs : List (Option Str)) : Bool :=
  cs.any (fun c => pyIn (pyLower g) (orEmptyLower c))

/-- C1: for every candidate with a non-empty item id, the score computed by
recommend_for_user is 1.0, plus 2.0 for each profile genre that is a
case-insensitive substring of some candidate category (stacking, uncapped),
plus 2.5 for each profile author that is a case-insensitive substring of some
candidate author, plus 0.5 exactly when the id is not among the already-rated
ids. The profile entries are lower-cased (as get_user_top_genres_and_authors
produces them), which makes the code's one-sided lowering case-insensitive. -/
theorem scoreBook_closed_form (tg ta rated : List Str) (b : Book) (bid : Str)
    (hbid : b.book_id = some bid) (_hne : bid ≠ [])
    (hg : ∀ g ∈ tg, pyLower g = g) (ha : ∀ a ∈ ta, pyLower a = a) :
    scoreBook tg ta rated b =
      1 + 2 * (tg.countP (fun g => ciMatch g b.categories) : Rat)
        + (5/2) * (ta.countP (fun a => ciMatch a b.authors) : Rat)
        + (if bid ∈ rated then 0 else 1/2) := by
  have hcg : tg.countP (fun g => b.categories.any (fun c => pyIn g (orEmptyLower c)))
      = tg.countP (fun g => ciMatch g b.categories) := by
    refine List.countP_congr (fun g hgm => ?_)
    rw [ciMatch, hg g hgm]
  have hca : ta.countP (fun a => b.authors.any (fun x => pyIn a (orEmptyLower x)))
      = ta.countP (fun a => ciMatch a b.authors) := by
    refine List.countP_congr (fun a ham => ?_)
    rw [ciMatch, ha a ham]
  simp only [scoreBook, foldl_cond_add, hcg, hca, hbid, Option.getD_some]
  split <;> ring

/-- Closed-form instance of the score at the spec's worked scenario (one genre
match, one author match, already rated). -/
theorem scoreBook_closed_form_witness :
    scoreBook [ str "fiction"] [ str "jane doe"] [ str "A1"]
      ⟨some (str "A1"), none, [some (str "Jane Doe")], [some (str "Fiction")]⟩ =
      1 + 2 * (List.countP (fun g => ciMatch g [some (str "Fiction")]) [ str "fiction"] : Rat)
        + (5/2) * (List.countP (fun a => ciMatch a [some (str "Jane Doe")]) [ str "jane doe"] : Rat)
        + (if str "A1" ∈ [ str "A1"] then 0 else 1/2) :=
  scoreBook_closed_form [ str "fiction"] [ str "jane doe"] [ str "A1"]
    ⟨some (str "A1"), none, [some (str "Jane Doe")], [some (str "Fiction")]⟩ (str "A1")
    (by decide) (by decide) (by decide) (by decide)

/-- C9: the scoring-and-ranking step is a pure, deterministic function of the
candidate pool (in order), the profile, the already-rated ids and the limit:
equal inputs give identical ordered outputs. -/
theorem rank_deterministic (tg1 ta1 rated1 tg2 ta2 rated2 : List Str)
    (flat1 flat2 : List Book) (limit1 limit2 : Int)
    (hg : tg1 = tg2) (ha : ta1 = ta2) (hr : rated1 = rated2)
    (hf : flat1 = flat2) (hl : limit1 = limit2) :
    rankCandidates tg1 ta1 rated1 flat1 limit1 = rankCandidates tg2 ta2 rated2 flat2 limit2 := by
  subst hg; subst ha; subst hr; subst hf; subst hl; rfl

/-- Determinism instance at a concrete pool. -/
theorem rank_deterministic_witness :
    rankCandidates [ str "fiction"] [] [] [⟨some (str "B2"), none, [], []⟩] 5 =
      rankCandidates [ str "fiction"] [] [] [⟨some (str "B2"), none, [], []⟩] 5 :=
  rank_deterministic _ _ _ _ _ _ _ _ _ _ rfl rfl rfl rfl rfl

/-- C6: whenever the extracted profile is empty in both dimensions (zero
ratings is only one such case; ratings lacking genre/author metadata are
another), the orchestrator issues exactly the two fallback queries; a user with
zero rating records is such a user; and no input ever yields zero queries. -/
theorem fallback_queries (ratings : List RatingRecord) (user_id : Str)
    (hempty : getUserTopGenresAndAuthors
      (ratings.filter (fun r => decide (r.user_id = user_id))) 3 = ([], [])) :
    issuedQueries ratings user_id =
      [genreQuery (str "fiction") 15, genreQuery (str "nonfiction") 15] ∧
    getUserTopGenresAndAuthors [] 3 = ([], []) ∧
    ∀ (ratings2 : List RatingRecord) (uid2 : Str), issuedQueries ratings2 uid2 ≠ [] := by
  refine ⟨?_, ?_, ?_⟩
  · show buildQueries
      (getUserTopGenresAndAuthors (ratings.filter (fun r => decide (r.user_id = user_id))) 3).1
      (getUserTopGenresAndAuthors (ratings.filter (fun r => decide (r.user_id = user_id))) 3).2
      = _
    rw [hempty]
    rfl
  · simp [getUserTopGenresAndAuthors, mostCommon, buildCounter, genreStream, authorStream,
      List.mergeSort]
  · intro ratings2 uid2
    rw [issuedQueries, buildQueries]
    split
    · simp
    · assumption

/-- Fallback instance: a user whose only rating record carries no genre/author
metadata (non-empty history, empty profile) gets exactly the two fallback
queries. -/
theorem fallback_queries_witness :
    issuedQueries [⟨ str "alice", str "X", some 5, none, none⟩] (str "alice") =
      [genreQuery (str "fiction") 15, genreQuery (str "nonfiction") 15] ∧
    getUserTopGenresAndAuthors [] 3 = ([], []) ∧
    ∀ (ratings2 : List RatingRecord) (uid2 : Str), issuedQueries ratings2 uid2 ≠ [] :=
  fallback_queries [⟨ str "alice", str "X", some 5, none, none⟩] (str "alice")
    (by simp [getUserTopGenresAndAuthors, mostCommon, buildCounter, genreStream, authorStream,
      List.mergeSort, str])

/-- mapM over Except agrees for pointwise-equal functions. -/
theorem mapM_congr_except {ε α β : Type} (f g : α → Except ε β) :
    ∀ (l : List α), (∀ a ∈ l, f a = g a) → l.mapM f = l.mapM g := by
  intro l
  induction l with
  | nil => intro _; rfl
  | cons a t ih =>
    intro h
    simp only [List.mapM_cons]
    rw [h a (List.mem_cons_self a t), ih (fun x hx => h x (List.mem_cons_of_mem a hx))]

/-- Every ProviderOutcome except a malformed 2xx body yields an ok result from
the query wrapper. -/
theorem sbk_ok (o : ProviderOutcome) (h : o ≠ ProviderOutcome.responded ProviderBody.malformed) :
    ∃ l, search_books_by_keywords o = Except.ok l := by
  cases o with
  | raised => exact ⟨[], rfl⟩
  | responded body =>
    cases body with
    | malformed => exact absurd rfl h
    | wellFormed items => exact ⟨items.map normalize_book, rfl⟩

/-- mapM over Except succeeds when every element does. -/
theorem mapM_ok_of_forall {ε α β : Type} (f : α → Except ε β) :
    ∀ (l : List α), (∀ a ∈ l, ∃ y, f a = Except.ok y) → ∃ ys, l.mapM f = Except.ok ys := by
  intro l
  induction l with
  | nil => intro _; exact ⟨[], rfl⟩
  | cons a t ih =>
    intro h
    obtain ⟨y, hy⟩ := h a (List.mem_cons_self a t)
    obtain ⟨ys, hys⟩ := ih (fun x hx => h x (List.mem_cons_of_mem a hx))
    refine ⟨y :: ys, ?_⟩
    simp only [List.mapM_cons, hy, hys]
    rfl

/-- recommend_for_user only observes the environment through the wrapped
per-query results. -/
theorem recommend_env_congr (ratings : List RatingRecord)
    (env env2 : SearchQuery → ProviderOutcome) (user_id : Str) (limit : Int)
    (h : ∀ q ∈ issuedQueries ratings user_id,
      search_books_by_keywords (env2 q) = search_books_by_keywords (env q)) :
    recommend_for_user ratings env2 user_id limit = recommend_for_user ratings env user_id limit := by
  simp only [issuedQueries] at h
  simp only [recommend_for_user]
  rw [mapM_congr_except _ _ _ h]

/-- C5: a provider failure (httpx.HTTPError: connection error, timeout, bad
status) on one query is converted by the query wrapper into an empty result
list for that query, and the whole recommendation run is identical to a run in
which that query succeeded with zero items: sibling queries and the overall
request are unaffected. -/
theorem query_failure_isolated (ratings : List RatingRecord)
    (env env2 : SearchQuery → ProviderOutcome) (user_id : Str) (limit : Int)
    (q0 : SearchQuery)
    (hsame : ∀ q, q ≠ q0 → env2 q = env q)
    (hfail : env2 q0 = ProviderOutcome.raised)
    (hok : env q0 = ProviderOutcome.responded (ProviderBody.wellFormed [])) :
    search_books_by_keywords (env2 q0) = Except.ok [] ∧
    recommend_for_user ratings env2 user_id limit =
      recommend_for_user ratings env user_id limit := by
  constructor
  · rw [hfail]; rfl
  · refine recommend_env_congr _ _ _ _ _ (fun q _ => ?_)
    by_cases hq : q = q0
    · subst hq
      rw [hfail, hok]
      rfl
    · rw [hsame q hq]

/-- An environment where every query succeeds with zero items. -/
def envAllOk : SearchQuery → ProviderOutcome :=
  fun _ => ProviderOutcome.responded (ProviderBody.wellFormed [])

/-- An environment where exactly the fiction fallback query fails with an
httpx error. -/
def envFailFiction : SearchQuery → ProviderOutcome :=
  fun q => if q = genreQuery (str "fiction") 15 then ProviderOutcome.raised else envAllOk q

/-- Failure-isolation instance: an environment that fails on the fiction
fallback query gives the same run as one where that query returns no items. -/
theorem query_failure_isolated_witness :
    search_books_by_keywords (envFailFiction (genreQuery (str "fiction") 15)) = Except.ok [] ∧
    recommend_for_user [] envFailFiction (str "u") 20 =
      recommend_for_user [] envAllOk (str "u") 20 :=
  query_failure_isolated [] envAllOk envFailFiction (str "u") 20 (genreQuery (str "fiction") 15)
    (fun q hq => by simp [envFailFiction, hq]) (by simp [envFailFiction]) rfl

/-- Membership after one dict update: either an old entry or the new one. -/
theorem mem_insertScored (sc : List ScoredEntry) (bid : Str) (s : Rat) (b : Book) :
    ∀ e ∈ insertScored sc bid s b,
      e ∈ sc ∨ (e.bid = bid ∧ e.score = s ∧ e.book = b) := by
  induction sc with
  | nil =>
    intro e he
    simp only [insertScored, List.mem_singleton] at he
    subst he
    exact Or.inr ⟨rfl, rfl, rfl⟩
  | cons hd tl ih =>
    intro e he
    rw [insertScored] at he
    by_cases h1 : hd.bid = bid
    · rw [if_pos h1] at he
      by_cases h2 : s > hd.score
      · rw [if_pos h2] at he
        rcases List.mem_cons.mp he with h3 | h3
        · subst h3; exact Or.inr ⟨rfl, rfl, rfl⟩
        · exact Or.inl (List.mem_cons_of_mem hd h3)
      · rw [if_neg h2] at he
        exact Or.inl he
    · rw [if_neg h1] at he
      rcases List.mem_cons.mp he with h3 | h3
      · exact Or.inl (by rw [h3]; exact List.mem_cons_self hd tl)
      · rcases ih e h3 with h4 | h4
        · exact Or.inl (List.mem_cons_of_mem hd h4)
        · exact Or.inr h4

/-- Every entry of the scored dict carries a valid id matching its key, the
score the scoring function assigns to its book, and a book from the pool. -/
theorem mem_buildScored (top_genres top_authors rated_ids : List Str) :
    ∀ (flat : List Book) (sc : List ScoredEntry) (e : ScoredEntry),
      e ∈ flat.foldl (fun scored b =>
        match validBid b with
        | none => scored
        | some bid => insertScored scored bid (scoreBook top_genres top_authors rated_ids b) b) sc →
      e ∈ sc ∨ (validBid e.book = some e.bid ∧
        e.score = scoreBook top_genres top_authors rated_ids e.book ∧ e.book ∈ flat) := by
  intro flat
  induction flat with
  | nil =>
    intro sc e he
    exact Or.inl he
  | cons b t ih =>
    intro sc e he
    rw [List.foldl_cons] at he
    rcases ih _ e he with h1 | h1
    · revert h1
      cases hvb : validBid b with
      | none => exact fun h1 => Or.inl h1
      | some bid =>
        intro h1
        rcases mem_insertScored sc bid _ b e h1 with h2 | h2
        · exact Or.inl h2
        · refine Or.inr ⟨?_, ?_, ?_⟩
          · rw [h2.2.2, h2.1, hvb]
          · rw [h2.2.1, h2.2.2]
          · rw [h2.2.2]; exact List.mem_cons_self b t
    · exact Or.inr ⟨h1.1, h1.2.1, List.mem_cons_of_mem b h1.2.2⟩

/-- A slice is made of elements of the original list. -/
theorem mem_pySliceTo {l : List α} {n : Int} {a : α} (h : a ∈ pySliceTo l n) : a ∈ l := by
  rw [pySliceTo] at h
  split at h
  · exact List.take_subset _ _ h
  · exact List.take_subset _ _ h

/-- C7: every book in the output of the scoring/ranking pipeline has a present,
non-empty item id — candidates with a missing, null or empty id are dropped
before scoring and never reach the output. -/
theorem malformed_candidates_dropped (top_genres top_authors rated_ids : List Str)
    (flat : List Book) (limit : Int) (b : Book)
    (h : b ∈ rankCandidates top_genres top_authors rated_ids flat limit) :
    ∃ s, b.book_id = some s ∧ s ≠ [] := by
  rw [rankCandidates] at h
  obtain ⟨e, he, hb⟩ := List.mem_map.mp h
  have he2 : e ∈ rankEntries (buildScored top_genres top_authors rated_ids flat) :=
    mem_pySliceTo he
  rw [rankEntries, List.mem_mergeSort] at he2
  rcases mem_buildScored top_genres top_authors rated_ids flat [] e he2 with h3 | h3
  · exact absurd h3 (List.not_mem_nil e)
  · have h4 := h3.1
    subst hb
    cases hbid : e.book.book_id with
    | none =>
      simp only [validBid, hbid] at h4
      exact Option.noConfusion h4
    | some s =>
      simp only [validBid, hbid] at h4
      by_cases hs : s = []
      · rw [if_pos hs] at h4; exact absurd h4 (by simp)
      · exact ⟨s, rfl, hs⟩

/-- Malformed-candidate instance: a pool with a valid candidate, an id-less
candidate and an empty-id candidate; the theorem applies to the one output
book. -/
theorem malformed_candidates_dropped_witness :
    ∃ s, (⟨some (str "B2"), none, [], []⟩ : Book).book_id = some s ∧ s ≠ [] :=
  malformed_candidates_dropped [] [] []
    [⟨none, none, [], []⟩, ⟨some [], none, [], []⟩, ⟨some (str "B2"), none, [], []⟩] 20
    ⟨some (str "B2"), none, [], []⟩
    (by simp [rankCandidates, rankEntries, buildScored, insertScored, validBid, pySliceTo,
      List.mergeSort, str])

/-- C8 counterexample: with an empty user_id and a non-positive limit the
request is not rejected — the pipeline still issues its (fallback) search
queries and returns an ok (empty) list, not a validation failure. -/
theorem no_validation_counterexample :
    recommend_for_user [] envAllOk (str "") 0 = Except.ok [] ∧
    issuedQueries [] (str "") ≠ [] := by
  constructor
  · simp [recommend_for_user, getUserTopGenresAndAuthors, mostCommon, buildCounter,
      genreStream, authorStream, List.mergeSort, buildQueries, envAllOk,
      search_books_by_keywords, rankCandidates, rankEntries, buildScored, pySliceTo,
      List.mapM, List.mapM.loop]
    rfl
  · simp [issuedQueries, getUserTopGenresAndAuthors, mostCommon, buildCounter,
      genreStream, authorStream, List.mergeSort, buildQueries]

/-- C8 amended: recommend_for_user performs no input validation at all: for
every user_id (including the empty string) and every limit (including
non-positive values) it reads the rating store, issues a non-empty query list,
and — whenever no provider response body is malformed — returns an ok list
rather than any validation failure. -/
theorem no_validation_pipeline_proceeds (ratings : List RatingRecord)
    (env : SearchQuery → ProviderOutcome) (user_id : Str) (limit : Int)
    (henv : ∀ q, env q ≠ ProviderOutcome.responded ProviderBody.malformed) :
    issuedQueries ratings user_id ≠ [] ∧
    ∃ out, recommend_for_user ratings env user_id limit = Except.ok out := by
  constructor
  · rw [issuedQueries, buildQueries]
    split
    · simp
    · assumption
  · obtain ⟨ys, hys⟩ := mapM_ok_of_forall (fun qy => search_books_by_keywords (env qy))
      (buildQueries
        (getUserTopGenresAndAuthors (ratings.filter (fun r => decide (r.user_id = user_id))) 3).1
        (getUserTopGenresAndAuthors (ratings.filter (fun r => decide (r.user_id = user_id))) 3).2)
      (fun q _ => sbk_ok (env q) (henv q))
    refine ⟨rankCandidates
      (getUserTopGenresAndAuthors (ratings.filter (fun r => decide (r.user_id = user_id))) 3).1
      (getUserTopGenresAndAuthors (ratings.filter (fun r => decide (r.user_id = user_id))) 3).2
      ((ratings.filter (fun r => decide (r.user_id = user_id))).map (fun r => r.book_id))
      ys.flatten limit, ?_⟩
    simp only [recommend_for_user, hys]
    rfl

/-- No-validation instance: empty user_id, limit 0, all queries succeeding. -/
theorem no_validation_pipeline_proceeds_witness :
    issuedQueries [] (str "") ≠ [] ∧
    ∃ out, recommend_for_user [] envAllOk (str "") 0 = Except.ok out :=
  no_validation_pipeline_proceeds [] envAllOk (str "") 0 (fun q => by simp [envAllOk])

/-- The occurrences of a given id in the candidate pool (the candidates that
survive the falsy-id guard and carry that id). -/
def occs (flat : List Book) (bid : Str) : List Book :=
  flat.filter (fun b => decide (validBid b = some bid))

/-- Lookup of the (score, book) value stored under a key of the scored dict. -/
def entLookup : List ScoredEntry → Str → Option (Rat × Book)
  | [], _ => none
  | e :: rest, bid => if e.bid = bid then some (e.score, e.book) else entLookup rest bid

/-- The dict update seen through one key's value. -/
def keepStep (score : Book → Rat) (o : Option (Rat × Book)) (b : Book) : Option (Rat × Book) :=
  match o with
  | none => some (score b, b)
  | some p => if score b > p.1 then some (score b, b) else some p

/-- Replay of the per-key updates of the deduplication loop. -/
def keepFold (score : Book → Rat) (o : Option (Rat × Book)) (l : List Book) :
    Option (Rat × Book) :=
  l.foldl (keepStep score) o

/-- entLookup after one insertScored. -/
theorem entLookup_insertScored (sc : List ScoredEntry) (bid bid' : Str) (s : Rat) (b : Book) :
    entLookup (insertScored sc bid s b) bid' =
      if bid = bid' then keepStep (fun _ => s) (entLookup sc bid') b
      else entLookup sc bid' := by
  induction sc with
  | nil =>
    by_cases h : bid = bid' <;> simp [insertScored, entLookup, keepStep, h]
  | cons hd tl ih =>
    rw [insertScored]
    by_cases h3 : bid = bid'
    · rw [if_pos h3]
      rw [h3] at ih ⊢
      by_cases h1 : hd.bid = bid'
      · rw [if_pos h1]
        by_cases h2 : s > hd.score
        · rw [if_pos h2]
          simp [entLookup, h1, keepStep, h2]
        · rw [if_neg h2]
          simp [entLookup, h1, keepStep, h2]
      · rw [if_neg h1]
        simp [entLookup, h1, ih]
    · rw [if_neg h3]
      by_cases h1 : hd.bid = bid
      · rw [if_pos h1]
        have h1' : ¬ hd.bid = bid' := by rw [h1]; exact h3
        by_cases h2 : s > hd.score
        · rw [if_pos h2]
          simp [entLookup, h1', h3]
        · rw [if_neg h2]
      · rw [if_neg h1]
        simp [entLookup, ih, h3]

/-- The value stored under a key after the whole loop is the keepFold of that
key's occurrences. -/
theorem entLookup_buildScored_aux (top_genres top_authors rated_ids : List Str) (bid : Str) :
    ∀ (flat : List Book) (sc : List ScoredEntry),
      entLookup (flat.foldl (fun scored b =>
        match validBid b with
        | none => scored
        | some k => insertScored scored k (scoreBook top_genres top_authors rated_ids b) b) sc) bid
      = keepFold (scoreBook top_genres top_authors rated_ids) (entLookup sc bid)
          (occs flat bid) := by
  intro flat
  induction flat with
  | nil => intro sc; simp [keepFold, occs]
  | cons b t ih =>
    intro sc
    rw [List.foldl_cons]
    cases hvb : validBid b with
    | none =>
      have hocc : occs (b :: t) bid = occs t bid := by
        simp [occs, List.filter_cons, hvb]
      rw [hocc, ih sc]
    | some k =>
      by_cases hk : k = bid
      · have hocc : occs (b :: t) bid = b :: occs t bid := by
          simp [occs, List.filter_cons, hvb, hk]
        rw [hocc, ih, entLookup_insertScored, if_pos hk]
        simp only [keepFold, List.foldl_cons]
        rfl
      · have hocc : occs (b :: t) bid = occs t bid := by
          simp [occs, List.filter_cons, hvb, hk]
        rw [hocc, ih, entLookup_insertScored, if_neg hk]

/-- Once a key holds a value it keeps holding one. -/
theorem keepFold_some (score : Book → Rat) :
    ∀ (l : List Book) (p : Rat × Book), ∃ q, keepFold score (some p) l = some q := by
  intro l
  induction l with
  | nil => exact fun p => ⟨p, rfl⟩
  | cons b t ih =>
    intro p
    rw [keepFold, List.foldl_cons]
    by_cases h : score b > p.1
    · simpa [keepStep, h] using ih (score b, b)
    · simpa [keepStep, h] using ih p

/-- The value kept for a key is the maximum score over its occurrences, held by
the first occurrence attaining that maximum (strict-greater replacement). -/
theorem keepFold_none_spec (score : Book → Rat) :
    ∀ (l : List Book) (q : Rat × Book), keepFold score none l = some q →
      (∀ b ∈ l, score b ≤ q.1) ∧
      ∃ l1 l2, l = l1 ++ q.2 :: l2 ∧ q.1 = score q.2 ∧ ∀ b ∈ l1, score b < q.1 := by
  intro l
  induction l using List.reverseRecOn with
  | nil => intro q hq; exact absurd hq (by simp [keepFold])
  | append_singleton l b ihl =>
    intro q hq
    rw [keepFold, List.foldl_append, List.foldl_cons, List.foldl_nil] at hq
    cases hl : (keepFold score none l) with
    | none =>
      have hlnil : l = [] := by
        cases l with
        | nil => rfl
        | cons x t =>
          exfalso
          obtain ⟨q', hq'⟩ := keepFold_some score t (score x, x)
          rw [keepFold, List.foldl_cons] at hl
          rw [show keepStep score none x = some (score x, x) from rfl] at hl
          rw [show List.foldl (keepStep score) (some (score x, x)) t
            = keepFold score (some (score x, x)) t from rfl, hq'] at hl
          exact Option.noConfusion hl
      subst hlnil
      rw [show List.foldl (keepStep score) none [] = none from rfl] at hq
      rw [show keepStep score none b = some (score b, b) from rfl] at hq
      obtain rfl : (score b, b) = q := Option.some.inj hq
      refine ⟨by simp, [], [], by simp, rfl, by simp⟩
    | some p =>
      rw [show List.foldl (keepStep score) none l = keepFold score none l from rfl, hl] at hq
      obtain ⟨hbound, l1, l2, hdec, hqscore, hstrict⟩ := ihl p hl
      rw [keepStep] at hq
      by_cases hgt : score b > p.1
      · rw [if_pos hgt] at hq
        obtain rfl : (score b, b) = q := Option.some.inj hq
        constructor
        · intro x hx
          rcases List.mem_append.mp hx with hx1 | hx1
          · exact le_of_lt (lt_of_le_of_lt (hbound x hx1) hgt)
          · rw [List.mem_singleton.mp hx1]
        · refine ⟨l, [], by simp, rfl, fun x hx => lt_of_le_of_lt (hbound x hx) hgt⟩
      · rw [if_neg hgt] at hq
        obtain rfl : p = q := Option.some.inj hq
        constructor
        · intro x hx
          rcases List.mem_append.mp hx with hx1 | hx1
          · exact hbound x hx1
          · rw [List.mem_singleton.mp hx1]; exact le_of_not_lt hgt
        · exact ⟨l1, l2 ++ [b], by rw [hdec]; simp, hqscore, hstrict⟩

/-- The keys of the scored dict after one update. -/
theorem insertScored_bids (sc : List ScoredEntry) (bid : Str) (s : Rat) (b : Book) :
    (insertScored sc bid s b).map (fun e => e.bid) =
      if bid ∈ sc.map (fun e => e.bid) then sc.map (fun e => e.bid)
      else sc.map (fun e => e.bid) ++ [bid] := by
  induction sc with
  | nil => simp [insertScored]
  | cons hd tl ih =>
    rw [insertScored]
    by_cases h1 : hd.bid = bid
    · have hmem : bid ∈ (hd :: tl).map (fun e => e.bid) := by
        simp [List.mem_cons, h1.symm]
      rw [if_pos hmem]
      by_cases h2 : s > hd.score
      · rw [if_pos h1, if_pos h2]
        simp [h1]
      · rw [if_pos h1, if_neg h2]
    · rw [if_neg h1, List.map_cons, List.map_cons, ih]
      by_cases h3 : bid ∈ tl.map (fun e => e.bid)
      · rw [if_pos h3, if_pos (by simp [List.mem_cons, h3])]
      · have hni : ¬ bid ∈ hd.bid :: tl.map (fun e => e.bid) := by
          simp only [List.mem_cons]
          rintro (hc | hc)
          · exact h1 hc.symm
          · exact h3 hc
        rw [if_neg h3, if_neg hni]
        simp

/-- The scored dict has pairwise-distinct keys. -/
theorem buildScored_bids_nodup (top_genres top_authors rated_ids : List Str) :
    ∀ (flat : List Book) (sc : List ScoredEntry),
      ((sc.map (fun e => e.bid)).Nodup) →
      (((flat.foldl (fun scored b =>
        match validBid b with
        | none => scored
        | some k => insertScored scored k (scoreBook top_genres top_authors rated_ids b) b) sc)).map
          (fun e => e.bid)).Nodup := by
  intro flat
  induction flat with
  | nil => exact fun sc h => h
  | cons b t ih =>
    intro sc hsc
    rw [List.foldl_cons]
    cases hvb : validBid b with
    | none => exact ih sc hsc
    | some k =>
      refine ih _ ?_
      rw [insertScored_bids]
      by_cases h3 : k ∈ sc.map (fun e => e.bid)
      · rw [if_pos h3]; exact hsc
      · rw [if_neg h3]
        simp [List.nodup_append, hsc, h3]

/-- Inversion of the falsy-id guard. -/
theorem validBid_inv {b : Book} {k : Str} (h : validBid b = some k) :
    b.book_id = some k ∧ k ≠ [] := by
  cases hbid : b.book_id with
  | none =>
    simp only [validBid, hbid] at h
    exact Option.noConfusion h
  | some s =>
    simp only [validBid, hbid] at h
    by_cases hs : s = []
    · rw [if_pos hs] at h; exact Option.noConfusion h
    · rw [if_neg hs] at h
      obtain rfl := Option.some.inj h
      exact ⟨rfl, hs⟩

/-- A slice is a sublist. -/
theorem pySliceTo_sublist (l : List α) (n : Int) : (pySliceTo l n).Sublist l := by
  rw [pySliceTo]
  split
  · exact List.take_sublist _ _
  · exact List.take_sublist _ _

/-- The ids of the ranked output are pairwise distinct. -/
theorem rankCandidates_ids_nodup (top_genres top_authors rated_ids : List Str)
    (flat : List Book) (limit : Int) :
    ((rankCandidates top_genres top_authors rated_ids flat limit).map
      (fun b => b.book_id)).Nodup := by
  have hkeys : (((buildScored top_genres top_authors rated_ids flat)).map
      (fun e => e.bid)).Nodup := by
    rw [buildScored]
    exact buildScored_bids_nodup top_genres top_authors rated_ids flat [] (by simp)
  have hperm : List.Perm
      ((rankEntries (buildScored top_genres top_authors rated_ids flat)).map (fun e => e.bid))
      ((buildScored top_genres top_authors rated_ids flat).map (fun e => e.bid)) :=
    (List.mergeSort_perm _ _).map _
  have hkeys2 : ((rankEntries (buildScored top_genres top_authors rated_ids flat)).map
      (fun e => e.bid)).Nodup := hperm.nodup_iff.mpr hkeys
  have hkeys3 : ((pySliceTo (rankEntries (buildScored top_genres top_authors rated_ids flat))
      limit).map (fun e => e.bid)).Nodup :=
    ((pySliceTo_sublist _ _).map _).nodup hkeys2
  rw [rankCandidates, List.map_map]
  have hch : ∀ e ∈ pySliceTo (rankEntries (buildScored top_genres top_authors rated_ids flat))
      limit, ((fun b => b.book_id) ∘ (fun e => e.book)) e = some e.bid := by
    intro e he
    have he2 : e ∈ buildScored top_genres top_authors rated_ids flat := by
      have := (pySliceTo_sublist _ _).mem he
      rwa [rankEntries, List.mem_mergeSort] at this
    rcases mem_buildScored top_genres top_authors rated_ids flat [] e
      (by rw [buildScored] at he2; exact he2) with h3 | h3
    · exact absurd h3 (List.not_mem_nil e)
    · exact (validBid_inv h3.1).1
  rw [List.map_congr_left hch]
  have : (pySliceTo (rankEntries (buildScored top_genres top_authors rated_ids flat))
      limit).map (fun e => some e.bid) =
      ((pySliceTo (rankEntries (buildScored top_genres top_authors rated_ids flat))
      limit).map (fun e => e.bid)).map some := by
    rw [List.map_map]
    rfl
  rw [this]
  exact hkeys3.map (fun _ _ h => Option.some.inj h)

/-- C3: for an id occurring two or more times in the raw pool, the output
contains at most one book per id (all output ids are pairwise distinct); the
entry kept for the id scores at least every occurrence, and its book is the
first occurrence attaining that maximal score (strictly earlier occurrences
score strictly less), so exact ties keep the first-scored occurrence. -/
theorem dedup_keeps_first_max (top_genres top_authors rated_ids : List Str)
    (flat : List Book) (limit : Int) (bid : Str)
    (h2 : 2 ≤ (occs flat bid).length) :
    ((rankCandidates top_genres top_authors rated_ids flat limit).map
      (fun b => b.book_id)).Nodup ∧
    ∃ q : Rat × Book,
      entLookup (buildScored top_genres top_authors rated_ids flat) bid = some q ∧
      (∀ b ∈ occs flat bid, scoreBook top_genres top_authors rated_ids b ≤ q.1) ∧
      ∃ l1 l2, occs flat bid = l1 ++ q.2 :: l2 ∧
        q.1 = scoreBook top_genres top_authors rated_ids q.2 ∧
        ∀ b ∈ l1, scoreBook top_genres top_authors rated_ids b < q.1 := by
  refine ⟨rankCandidates_ids_nodup top_genres top_authors rated_ids flat limit, ?_⟩
  have hchar : entLookup (buildScored top_genres top_authors rated_ids flat) bid =
      keepFold (scoreBook top_genres top_authors rated_ids) none (occs flat bid) := by
    rw [buildScored]
    exact entLookup_buildScored_aux top_genres top_authors rated_ids bid flat []
  obtain ⟨q, hq⟩ : ∃ q, keepFold (scoreBook top_genres top_authors rated_ids) none
      (occs flat bid) = some q := by
    cases hoc : occs flat bid with
    | nil => rw [hoc] at h2; exact absurd h2 (by simp)
    | cons x t =>
      rw [keepFold, List.foldl_cons]
      exact keepFold_some _ t _
  obtain ⟨hbound, l1, l2, hdec, hqs, hstrict⟩ := keepFold_none_spec _ _ _ hq
  exact ⟨q, by rw [hchar, hq], hbound, l1, l2, hdec, hqs, hstrict⟩

/-- Deduplication instance: the id C3 occurs twice (scores 3.5 then 1.5); the
theorem's conclusion holds at that pool. -/
theorem dedup_keeps_first_max_witness :
    ((rankCandidates [ str "fiction"] [] [] [⟨some (str "C3"), none, [], [some (str "Fiction")]⟩,
      ⟨some (str "C3"), none, [], []⟩] 20).map (fun b => b.book_id)).Nodup ∧
    ∃ q : Rat × Book,
      entLookup (buildScored [ str "fiction"] [] [] [⟨some (str "C3"), none, [], [some (str "Fiction")]⟩,
        ⟨some (str "C3"), none, [], []⟩]) (str "C3") = some q ∧
      (∀ b ∈ occs [⟨some (str "C3"), none, [], [some (str "Fiction")]⟩,
        ⟨some (str "C3"), none, [], []⟩] (str "C3"), scoreBook [ str "fiction"] [] [] b ≤ q.1) ∧
      ∃ l1 l2, occs [⟨some (str "C3"), none, [], [some (str "Fiction")]⟩,
        ⟨some (str "C3"), none, [], []⟩] (str "C3") = l1 ++ q.2 :: l2 ∧
        q.1 = scoreBook [ str "fiction"] [] [] q.2 ∧
        ∀ b ∈ l1, scoreBook [ str "fiction"] [] [] b < q.1 :=
  dedup_keeps_first_max [ str "fiction"] [] []
    [⟨some (str "C3"), none, [], [some (str "Fiction")]⟩, ⟨some (str "C3"), none, [], []⟩]
    20 (str "C3") (by decide)

/-- The score-descending comparison is transitive. -/
theorem scoreLe_trans : ∀ (a b c : ScoredEntry),
    (fun x y : ScoredEntry => decide (y.score ≤ x.score)) a b = true →
    (fun x y : ScoredEntry => decide (y.score ≤ x.score)) b c = true →
    (fun x y : ScoredEntry => decide (y.score ≤ x.score)) a c = true := by
  intro a b c h1 h2
  simp only [decide_eq_true_eq] at h1 h2 ⊢
  exact le_trans h2 h1

/-- The score-descending comparison is total. -/
theorem scoreLe_total : ∀ (a b : ScoredEntry),
    ((fun x y : ScoredEntry => decide (y.score ≤ x.score)) a b ||
     (fun x y : ScoredEntry => decide (y.score ≤ x.score)) b a) = true := by
  intro a b
  simp only [Bool.or_eq_true, decide_eq_true_eq]
  exact le_total b.score a.score

/-- C4: the returned list is the deduplicated candidate set sorted by score
descending and truncated to the limit: its length never exceeds the (positive)
limit; when the deduplicated pool is smaller than the limit, every deduplicated
candidate is returned; the entries backing the output are in descending score
order; and the output holds bare book dicts from the pool (no score field). -/
theorem output_sorted_truncated (top_genres top_authors rated_ids : List Str)
    (flat : List Book) (limit : Int) (hl : 0 < limit) :
    ((rankCandidates top_genres top_authors rated_ids flat limit).length : Int) ≤ limit ∧
    rankCandidates top_genres top_authors rated_ids flat limit =
      (pySliceTo (rankEntries (buildScored top_genres top_authors rated_ids flat)) limit).map
        (fun e => e.book) ∧
    ((pySliceTo (rankEntries (buildScored top_genres top_authors rated_ids flat)) limit).map
      (fun e => e.score)).Pairwise (fun a b => b ≤ a) ∧
    (((buildScored top_genres top_authors rated_ids flat).length : Int) < limit →
      (rankCandidates top_genres top_authors rated_ids flat limit).length =
        (buildScored top_genres top_authors rated_ids flat).length ∧
      ∀ e ∈ buildScored top_genres top_authors rated_ids flat,
        e.book ∈ rankCandidates top_genres top_authors rated_ids flat limit) ∧
    ∀ b ∈ rankCandidates top_genres top_authors rated_ids flat limit, b ∈ flat := by
  refine ⟨?_, rfl, ?_, ?_, ?_⟩
  · rw [rankCandidates, List.length_map, pySliceTo, if_pos (le_of_lt hl), List.length_take]
    omega
  · have hsorted : (rankEntries (buildScored top_genres top_authors rated_ids flat)).Pairwise
        (fun x y : ScoredEntry => decide (y.score ≤ x.score)) :=
      List.sorted_mergeSort scoreLe_trans scoreLe_total _
    have hslice := hsorted.sublist (pySliceTo_sublist _ limit)
    rw [List.pairwise_map]
    exact hslice.imp (fun h => of_decide_eq_true h)
  · intro hlt
    have hlen : (rankEntries (buildScored top_genres top_authors rated_ids flat)).length =
        (buildScored top_genres top_authors rated_ids flat).length := by
      rw [rankEntries, List.length_mergeSort]
    have htake : pySliceTo (rankEntries (buildScored top_genres top_authors rated_ids flat))
        limit = rankEntries (buildScored top_genres top_authors rated_ids flat) := by
      rw [pySliceTo, if_pos (le_of_lt hl)]
      refine List.take_of_length_le ?_
      rw [hlen]
      omega
    constructor
    · rw [rankCandidates, List.length_map, htake, hlen]
    · intro e he
      rw [rankCandidates, htake]
      refine List.mem_map.mpr ⟨e, ?_, rfl⟩
      rw [rankEntries, List.mem_mergeSort]
      exact he
  · intro b hb
    rw [rankCandidates] at hb
    obtain ⟨e, he, hbe⟩ := List.mem_map.mp hb
    have he2 : e ∈ buildScored top_genres top_authors rated_ids flat := by
      have := (pySliceTo_sublist _ _).mem he
      rwa [rankEntries, List.mem_mergeSort] at this
    rcases mem_buildScored top_genres top_authors rated_ids flat [] e
      (by rw [buildScored] at he2; exact he2) with h3 | h3
    · exact absurd h3 (List.not_mem_nil e)
    · rw [← hbe]
      exact h3.2.2

/-- Truncation instance: two candidates, limit 20. -/
theorem output_sorted_truncated_witness :
    ((rankCandidates [ str "fiction"] [] [] [⟨some (str "A1"), none, [], []⟩,
      ⟨some (str "B2"), none, [], []⟩] 20).length : Int) ≤ 20 ∧
    rankCandidates [ str "fiction"] [] [] [⟨some (str "A1"), none, [], []⟩,
      ⟨some (str "B2"), none, [], []⟩] 20 =
      (pySliceTo (rankEntries (buildScored [ str "fiction"] [] []
        [⟨some (str "A1"), none, [], []⟩, ⟨some (str "B2"), none, [], []⟩])) 20).map
        (fun e => e.book) ∧
    ((pySliceTo (rankEntries (buildScored [ str "fiction"] [] []
      [⟨some (str "A1"), none, [], []⟩, ⟨some (str "B2"), none, [], []⟩])) 20).map
      (fun e => e.score)).Pairwise (fun a b => b ≤ a) ∧
    (((buildScored [ str "fiction"] [] [] [⟨some (str "A1"), none, [], []⟩,
      ⟨some (str "B2"), none, [], []⟩]).length : Int) < 20 →
      (rankCandidates [ str "fiction"] [] [] [⟨some (str "A1"), none, [], []⟩,
        ⟨some (str "B2"), none, [], []⟩] 20).length =
        (buildScored [ str "fiction"] [] [] [⟨some (str "A1"), none, [], []⟩,
          ⟨some (str "B2"), none, [], []⟩]).length ∧
      ∀ e ∈ buildScored [ str "fiction"] [] [] [⟨some (str "A1"), none, [], []⟩,
        ⟨some (str "B2"), none, [], []⟩],
        e.book ∈ rankCandidates [ str "fiction"] [] [] [⟨some (str "A1"), none, [], []⟩,
          ⟨some (str "B2"), none, [], []⟩] 20) ∧
    ∀ b ∈ rankCandidates [ str "fiction"] [] [] [⟨some (str "A1"), none, [], []⟩,
      ⟨some (str "B2"), none, [], []⟩] 20,
      b ∈ [⟨some (str "A1"), none, [], []⟩, ⟨some (str "B2"), none, [], []⟩] :=
  output_sorted_truncated [ str "fiction"] [] []
    [⟨some (str "A1"), none, [], []⟩, ⟨some (str "B2"), none, [], []⟩] 20 (by decide)

/-- Declarative accumulated weight of a key: the sum of the weights of all its
stream occurrences (a record whose list mentions a genre k times contributes k
times its rating). -/
def streamWeight (s : List (Str × Rat)) (g : Str) : Rat :=
  ((s.filter (fun p => decide (p.1 = g))).map (fun p => p.2)).sum

/-- The distinct keys of a stream in first-encounter order. -/
def firstOcc : List Str → List Str
  | [] => []
  | k :: t => k :: (firstOcc t).filter (fun x => decide (x ≠ k))

/-- The declarative weight table: first-encounter key order, declarative
weights. -/
def specTable (s : List (Str × Rat)) : List (Str × Rat) :=
  (firstOcc (s.map (fun p => p.1))).map (fun g => (g, streamWeight s g))

/-- firstOcc keeps exactly the elements. -/
theorem mem_firstOcc : ∀ (l : List Str) (x : Str), x ∈ firstOcc l ↔ x ∈ l := by
  intro l
  induction l with
  | nil => intro x; rfl
  | cons k t ih =>
    intro x
    rw [firstOcc]
    by_cases hx : x = k
    · simp [hx]
    · simp [List.mem_cons, List.mem_filter, hx, ih]

/-- firstOcc has no duplicates. -/
theorem firstOcc_nodup : ∀ (l : List Str), (firstOcc l).Nodup := by
  intro l
  induction l with
  | nil => exact List.nodup_nil
  | cons k t ih =>
    rw [firstOcc]
    refine List.nodup_cons.mpr ⟨?_, ih.filter _⟩
    intro hk
    have := (List.mem_filter.mp hk).2
    simp at this

/-- firstOcc after appending one key. -/
theorem firstOcc_append_singleton : ∀ (l : List Str) (k : Str),
    firstOcc (l ++ [k]) = if k ∈ l then firstOcc l else firstOcc l ++ [k] := by
  intro l
  induction l with
  | nil => intro k; simp [firstOcc]
  | cons a t ih =>
    intro k
    rw [List.cons_append, firstOcc, ih k, firstOcc]
    by_cases hk : k ∈ t
    · rw [if_pos hk, if_pos (List.mem_cons_of_mem a hk)]
    · by_cases hak : k = a
      · rw [if_neg hk, if_pos (by rw [hak]; exact List.mem_cons_self a t)]
        rw [List.filter_append]
        simp [hak]
      · rw [if_neg hk, if_neg (by simp [List.mem_cons, hak, hk])]
        rw [List.filter_append, List.cons_append]
        simp [hak, Ne.symm hak]

/-- streamWeight after appending one increment. -/
theorem streamWeight_append_singleton (s : List (Str × Rat)) (p : Str × Rat) (g : Str) :
    streamWeight (s ++ [p]) g = streamWeight s g + (if p.1 = g then p.2 else 0) := by
  by_cases h : p.1 = g <;>
    simp [streamWeight, List.filter_append, h]

/-- Keys never seen have weight 0. -/
theorem streamWeight_zero_of_not_mem {s : List (Str × Rat)} {g : Str}
    (h : g ∉ s.map (fun p => p.1)) : streamWeight s g = 0 := by
  have hf : s.filter (fun p => decide (p.1 = g)) = [] := by
    refine List.filter_eq_nil_iff.mpr (fun p hp => ?_)
    simp only [decide_eq_true_eq]
    intro he
    exact h (List.mem_map.mpr ⟨p, hp, he⟩)
  simp [streamWeight, hf]

/-- One Counter increment against a table of per-key values. -/
theorem cntAdd_map (ks : List Str) (f : Str → Rat) (k : Str) (v : Rat)
    (hnd : ks.Nodup) (h0 : k ∉ ks → f k = 0) :
    cntAdd (ks.map (fun g => (g, f g))) k v =
      (if k ∈ ks then ks else ks ++ [k]).map
        (fun g => (g, f g + (if k = g then v else 0))) := by
  induction ks with
  | nil =>
    have hk0 : f k = 0 := h0 (by simp)
    simp [cntAdd, hk0]
  | cons a t ih =>
    rw [List.map_cons, cntAdd]
    by_cases hak : a = k
    · rw [if_pos hak, if_pos (by rw [← hak]; exact List.mem_cons_self a t), List.map_cons]
      have hkt : k ∉ t := by rw [← hak]; exact (List.nodup_cons.mp hnd).1
      have hmap : t.map (fun g => (g, f g)) =
          t.map (fun g => (g, f g + (if k = g then v else 0))) := by
        refine List.map_congr_left (fun g hg => ?_)
        have : ¬ k = g := fun he => hkt (he ▸ hg)
        simp [this]
      rw [← hmap, ← hak]
      simp
    · rw [if_neg hak]
      have hnd' : t.Nodup := (List.nodup_cons.mp hnd).2
      have hka : ¬ k = a := fun he => hak he.symm
      have h0' : k ∉ t → f k = 0 := by
        intro hkt
        refine h0 ?_
        simp [List.mem_cons, hkt, hka]
      rw [ih hnd' h0']
      by_cases hkt : k ∈ t
      · rw [if_pos hkt, if_pos (List.mem_cons_of_mem a hkt), List.map_cons]
        simp [hka]
      · rw [if_neg hkt, if_neg (by simp [List.mem_cons, hkt, hka])]
        rw [List.cons_append, List.map_cons, List.map_append]
        simp [hka]

/-- The Counter built by the extraction loop IS the declarative weight table:
insertion order is first-encounter order and each stored count is the
occurrence-weighted sum of ratings. -/
theorem counter_eq_specTable : ∀ (s : List (Str × Rat)), buildCounter s = specTable s := by
  intro s
  induction s using List.reverseRecOn with
  | nil => rfl
  | append_singleton s p ih =>
    have hstep : buildCounter (s ++ [p]) = cntAdd (buildCounter s) p.1 p.2 := by
      rw [buildCounter, buildCounter, List.foldl_append, List.foldl_cons, List.foldl_nil]
    rw [hstep, ih, specTable, cntAdd_map _ _ _ _ (firstOcc_nodup _)
      (fun hn => streamWeight_zero_of_not_mem (fun hm => hn ((mem_firstOcc _ _).mpr hm)))]
    rw [specTable, List.map_append]
    simp only [List.map_cons, List.map_nil]
    rw [firstOcc_append_singleton]
    by_cases hmem : p.1 ∈ s.map (fun p => p.1)
    · rw [if_pos hmem, if_pos ((mem_firstOcc _ _).mpr hmem)]
      refine List.map_congr_left (fun g hg => ?_)
      rw [streamWeight_append_singleton]
    · rw [if_neg hmem, if_neg (fun hc => hmem ((mem_firstOcc _ _).mp hc))]
      refine List.map_congr_left (fun g hg => ?_)
      rw [streamWeight_append_singleton]

/-- Lookup in a per-key table. -/
theorem cntLookup_map (ks : List Str) (f : Str → Rat) (g : Str) :
    cntLookup (ks.map (fun k => (k, f k))) g = if g ∈ ks then some (f g) else none := by
  induction ks with
  | nil => simp [cntLookup]
  | cons a t ih =>
    rw [List.map_cons, cntLookup]
    by_cases hag : a = g
    · rw [if_pos hag, if_pos (by rw [hag]; exact List.mem_cons_self g t), hag]
    · rw [if_neg hag, ih]
      by_cases hgt : g ∈ t
      · rw [if_pos hgt, if_pos (List.mem_cons_of_mem a hgt)]
      · have hga : ¬ g = a := fun he => hag he.symm
        rw [if_neg hgt, if_neg (by simp [List.mem_cons, hgt, hga])]

/-- mergeSort on a two-element list. -/
theorem mergeSort_pair {α : Type} (le : α → α → Bool) (x y : α) :
    [x, y].mergeSort le = if le x y then [x, y] else [y, x] := by
  rw [List.mergeSort]
  simp [List.mergeSort, List.merge]

/-- The claim's weight of a lower-cased genre string: the sum of the rating
values of the rating records whose (lower-cased) genre list contains it — one
contribution per record, regardless of how often the record's list mentions
the string. -/
def claimGenreWeight (recs : List RatingRecord) (g : Str) : Rat :=
  ((recs.filter (fun r => decide (g ∈ (r.categories.getD []).map pyLower))).map
    (fun r => r.rating.getD 0)).sum

/-- C2 counterexample: with records (rating 3, genres ["a"]) and (rating 2,
genres ["B", "b"]), the code returns ["b"] as the top-1 genre (the Counter
holds b ↦ 4 because the rating is added once per occurrence), although under
the claim's per-record weight a ↦ 3 exceeds b ↦ 2 — so the output is not the
top-1 ordered by the claim's accumulated weight. -/
theorem profile_weight_counterexample :
    (getUserTopGenresAndAuthors
      [⟨ str "u", str "X", some 3, some [ str "a"], none⟩,
       ⟨ str "u", str "Y", some 2, some [ str "B", str "b"], none⟩] 1).1 = [ str "b"] ∧
    claimGenreWeight
      [⟨ str "u", str "X", some 3, some [ str "a"], none⟩,
       ⟨ str "u", str "Y", some 2, some [ str "B", str "b"], none⟩] (str "b") <
    claimGenreWeight
      [⟨ str "u", str "X", some 3, some [ str "a"], none⟩,
       ⟨ str "u", str "Y", some 2, some [ str "B", str "b"], none⟩] (str "a") := by
  constructor
  · show (mostCommon (buildCounter (genreStream
      [⟨ str "u", str "X", some 3, some [ str "a"], none⟩,
       ⟨ str "u", str "Y", some 2, some [ str "B", str "b"], none⟩])) 1).map (fun p => p.1) = _
    have h1 : buildCounter (genreStream
        [⟨ str "u", str "X", some 3, some [ str "a"], none⟩,
         ⟨ str "u", str "Y", some 2, some [ str "B", str "b"], none⟩]) =
        [(str "a", 3), (str "b", 4)] := by
      simp [buildCounter, genreStream, cntAdd, pyLower, lowerChar, str]
      norm_num
    rw [mostCommon, h1, mergeSort_pair]
    norm_num [ str]
  · simp [claimGenreWeight, pyLower, lowerChar, str]
    norm_num

/-- The weight-descending comparison is transitive. -/
theorem pairGe_trans : ∀ (a b c : Str × Rat),
    (fun a b : Str × Rat => decide (b.2 ≤ a.2)) a b = true →
    (fun a b : Str × Rat => decide (b.2 ≤ a.2)) b c = true →
    (fun a b : Str × Rat => decide (b.2 ≤ a.2)) a c = true := by
  intro a b c h1 h2
  simp only [decide_eq_true_eq] at h1 h2 ⊢
  exact le_trans h2 h1

/-- The weight-descending comparison is total. -/
theorem pairGe_total : ∀ (a b : Str × Rat),
    ((fun a b : Str × Rat => decide (b.2 ≤ a.2)) a b ||
     (fun a b : Str × Rat => decide (b.2 ≤ a.2)) b a) = true := by
  intro a b
  simp only [Bool.or_eq_true, decide_eq_true_eq]
  exact le_total b.2 a.2

/-- The declarative table's keys, in order, are the first-encounter keys. -/
theorem specTable_keys (s : List (Str × Rat)) :
    (specTable s).map (fun p => p.1) = firstOcc (s.map (fun p => p.1)) := by
  rw [specTable, List.map_map]
  rw [show ((fun p : Str × Rat => p.1) ∘ fun g => (g, streamWeight s g)) = fun g => g from rfl]
  exact List.map_id _

/-- Every table entry pairs a key with its declarative weight. -/
theorem mem_specTable {s : List (Str × Rat)} {p : Str × Rat} (h : p ∈ specTable s) :
    p = (p.1, streamWeight s p.1) := by
  obtain ⟨g, _, rfl⟩ := List.mem_map.mp h
  rfl

/-- The declarative table has no duplicate entries. -/
theorem specTable_nodup (s : List (Str × Rat)) : (specTable s).Nodup := by
  have h : ((specTable s).map (fun p => p.1)).Nodup := by
    rw [specTable_keys]
    exact firstOcc_nodup _
  exact h.of_map

/-- The stably sorted declarative table. -/
def sortedTable (s : List (Str × Rat)) : List (Str × Rat) :=
  (specTable s).mergeSort (fun a b => decide (b.2 ≤ a.2))

/-- The top-n keys of the declarative table under the stable
weight-descending sort — the spec's reading of most_common. -/
def topKeys (s : List (Str × Rat)) (n : Nat) : List Str :=
  (mostCommon (specTable s) n).map (fun p => p.1)

/-- Two distinct members of a list occur in one order or the other. -/
theorem pair_sublist_or {α : Type} : ∀ (l : List α) (a b : α), a ∈ l → b ∈ l → a ≠ b →
    [a, b].Sublist l ∨ [b, a].Sublist l := by
  intro l
  induction l with
  | nil => intro a b ha; exact absurd ha (List.not_mem_nil a)
  | cons x t ih =>
    intro a b ha hb hne
    by_cases hax : a = x
    · subst hax
      rcases List.mem_cons.mp hb with hbx | hbt
      · exact absurd hbx.symm hne
      · exact Or.inl (List.Sublist.cons₂ a (List.singleton_sublist.mpr hbt))
    · have hat : a ∈ t := by
        rcases List.mem_cons.mp ha with h | h
        · exact absurd h hax
        · exact h
      by_cases hbx : b = x
      · subst hbx
        exact Or.inr (List.Sublist.cons₂ b (List.singleton_sublist.mpr hat))
      · have hbt : b ∈ t := by
          rcases List.mem_cons.mp hb with h | h
          · exact absurd h hbx
          · exact h
        rcases ih a b hat hbt hne with h | h
        · exact Or.inl (h.cons x)
        · exact Or.inr (h.cons x)

/-- In a duplicate-free list a pair can occur in only one order. -/
theorem pair_sublist_antisymm {α : Type} : ∀ (l : List α), l.Nodup → ∀ (a b : α),
    [a, b].Sublist l → [b, a].Sublist l → a = b := by
  intro l
  induction l with
  | nil =>
    intro _ a b h1
    exact absurd h1 (by simp)
  | cons x t ih =>
    intro hnd a b h1 h2
    have hxt : x ∉ t := (List.nodup_cons.mp hnd).1
    have hndt : t.Nodup := (List.nodup_cons.mp hnd).2
    cases h1 with
    | cons _ h1' =>
      cases h2 with
      | cons _ h2' => exact ih hndt a b h1' h2'
      | cons₂ _ h2' =>
        have hbt := h1'.subset (List.mem_cons_of_mem _ (List.mem_cons_self _ _))
        exact absurd hbt hxt
    | cons₂ _ h1' =>
      cases h2 with
      | cons _ h2' =>
        have hat := h2'.subset (List.mem_cons_of_mem _ (List.mem_cons_self _ _))
        exact absurd hat hxt
      | cons₂ _ h2' => rfl

/-- Weight of a table entry. -/
theorem snd_of_mem_specTable {s : List (Str × Rat)} {p : Str × Rat} (h : p ∈ specTable s) :
    p.2 = streamWeight s p.1 :=
  congrArg Prod.snd (mem_specTable h)

/-- The sorted table keeps distinct entries. -/
theorem sortedTable_nodup (s : List (Str × Rat)) : (sortedTable s).Nodup :=
  ((List.mergeSort_perm _ _).nodup_iff).mpr (specTable_nodup s)

/-- topKeys through the sorted table. -/
theorem topKeys_eq (s : List (Str × Rat)) (n : Nat) :
    topKeys s n = ((sortedTable s).take n).map (fun p => p.1) := rfl

/-- mergeSort sortedness of the table. -/
theorem sortedTable_pairwise (s : List (Str × Rat)) :
    (sortedTable s).Pairwise (fun a b : Str × Rat => decide (b.2 ≤ a.2) = true) :=
  List.sorted_mergeSort pairGe_trans pairGe_total (specTable s)

/-- The spec-side top-n keys descend in declarative weight. -/
theorem topKeys_sorted (s : List (Str × Rat)) (n : Nat) :
    (topKeys s n).Pairwise (fun g1 g2 => streamWeight s g2 ≤ streamWeight s g1) := by
  rw [topKeys_eq, List.pairwise_map]
  refine List.pairwise_iff_forall_sublist.mpr ?_
  intro p q hsub
  have hp : p ∈ (sortedTable s).take n := hsub.subset (List.mem_cons_self _ _)
  have hq : q ∈ (sortedTable s).take n :=
    hsub.subset (List.mem_cons_of_mem _ (List.mem_cons_self _ _))
  have hpS : p ∈ specTable s :=
    List.mem_mergeSort.mp ((List.take_sublist _ _).subset hp)
  have hqS : q ∈ specTable s :=
    List.mem_mergeSort.mp ((List.take_sublist _ _).subset hq)
  have hle : decide (q.2 ≤ p.2) = true :=
    List.pairwise_iff_forall_sublist.mp ((sortedTable_pairwise s).take) hsub
  have hle2 : q.2 ≤ p.2 := of_decide_eq_true hle
  rw [← snd_of_mem_specTable hpS, ← snd_of_mem_specTable hqS]
  exact hle2

/-- Equal-weight keys appear in first-encounter order (mergeSort stability). -/
theorem topKeys_ties (s : List (Str × Rat)) (n : Nat) :
    (topKeys s n).Pairwise (fun g1 g2 => streamWeight s g1 = streamWeight s g2 →
      [g1, g2].Sublist (firstOcc (s.map (fun p => p.1)))) := by
  rw [topKeys_eq, List.pairwise_map]
  refine List.pairwise_iff_forall_sublist.mpr ?_
  intro p q hsub hW
  have hndM : (sortedTable s).Nodup := sortedTable_nodup s
  have hndT : ((sortedTable s).take n).Nodup := hndM.sublist (List.take_sublist _ _)
  have hpq_ne : p ≠ q := by
    have h2 := hsub.nodup hndT
    simp only [List.nodup_cons, List.mem_singleton] at h2
    exact h2.1
  have hpS : p ∈ specTable s :=
    List.mem_mergeSort.mp ((List.take_sublist _ _).subset
      (hsub.subset (List.mem_cons_self _ _)))
  have hqS : q ∈ specTable s :=
    List.mem_mergeSort.mp ((List.take_sublist _ _).subset
      (hsub.subset (List.mem_cons_of_mem _ (List.mem_cons_self _ _))))
  have hp2 : p.2 = q.2 := by
    rw [snd_of_mem_specTable hpS, snd_of_mem_specTable hqS, hW]
  rcases pair_sublist_or (specTable s) p q hpS hqS hpq_ne with hor | hor
  · rw [← specTable_keys]
    exact hor.map _
  · exfalso
    have hpairwise : ([q, p] : List (Str × Rat)).Pairwise
        (fun a b : Str × Rat => decide (b.2 ≤ a.2) = true) := by
      refine List.pairwise_pair.mpr ?_
      rw [hp2]
      simp
    have hstab : [q, p].Sublist (sortedTable s) :=
      List.sublist_mergeSort pairGe_trans pairGe_total hpairwise hor
    have hfwd : [p, q].Sublist (sortedTable s) := hsub.trans (List.take_sublist _ _)
    exact hpq_ne (pair_sublist_antisymm (sortedTable s) hndM p q hfwd hstab)

/-- The spec-side top-n list has min n (number of distinct keys) entries. -/
theorem topKeys_length (s : List (Str × Rat)) (n : Nat) :
    (topKeys s n).length = min n (firstOcc (s.map (fun p => p.1))).length := by
  rw [topKeys_eq]
  rw [List.length_map, List.length_take]
  rw [show (sortedTable s).length = (specTable s).length from List.length_mergeSort _]
  rw [specTable, List.length_map]

/-- Every returned key was encountered in the stream. -/
theorem topKeys_mem (s : List (Str × Rat)) (n : Nat) :
    ∀ g ∈ topKeys s n, g ∈ s.map (fun p => p.1) := by
  intro g hg
  rw [topKeys_eq] at hg
  obtain ⟨p, hp, rfl⟩ := List.mem_map.mp hg
  have hpS : p ∈ specTable s :=
    List.mem_mergeSort.mp ((List.take_sublist _ _).subset hp)
  have : p.1 ∈ (specTable s).map (fun p => p.1) := List.mem_map.mpr ⟨p, hpS, rfl⟩
  rw [specTable_keys] at this
  exact (mem_firstOcc _ _).mp this

/-- Keys left out of the top-n weigh no more than any returned key. -/
theorem topKeys_complete (s : List (Str × Rat)) (n : Nat) :
    ∀ g, g ∈ s.map (fun p => p.1) → g ∉ topKeys s n →
      ∀ g2 ∈ topKeys s n, streamWeight s g ≤ streamWeight s g2 := by
  intro g hgk hgout g2 hg2
  have hgS : (g, streamWeight s g) ∈ specTable s := by
    rw [specTable]
    exact List.mem_map.mpr ⟨g, (mem_firstOcc _ _).mpr hgk, rfl⟩
  have hgM : (g, streamWeight s g) ∈ sortedTable s := List.mem_mergeSort.mpr hgS
  rw [← List.take_append_drop n (sortedTable s)] at hgM
  rcases List.mem_append.mp hgM with htake | hdrop
  · exact absurd (by rw [topKeys_eq]; exact List.mem_map.mpr ⟨_, htake, rfl⟩) hgout
  · rw [topKeys_eq] at hg2
    obtain ⟨q, hq, rfl⟩ := List.mem_map.mp hg2
    have hqS : q ∈ specTable s :=
      List.mem_mergeSort.mp ((List.take_sublist _ _).subset hq)
    have hrel := (sortedTable_pairwise s).rel_of_mem_take_of_mem_drop hq hdrop
    have hle : (g, streamWeight s g).2 ≤ q.2 := of_decide_eq_true hrel
    rw [snd_of_mem_specTable hqS] at hle
    exact hle

/-- C2 (amended): profile extraction returns exactly the spec-side top-n keys
of each dimension — ordered by descending accumulated weight, where the weight
of a lower-cased key is the sum over the user's records of the record's rating
counted once per occurrence of the key in the record's lower-cased genre
(resp. author) list; ties are broken by first-encounter (insertion) order;
the list holds the top_n distinct encountered keys (all of min n (#keys) of
them, every omitted key weighing no more than any returned one); and records
lacking genre (resp. author) metadata contribute nothing to that dimension,
without erroring. -/
theorem profile_extraction_spec (recs : List RatingRecord) (n : Nat)
    (uid bid : Str) (rat : Option Rat) (auth cats : Option (List Str)) :
    getUserTopGenresAndAuthors recs n =
      (topKeys (genreStream recs) n, topKeys (authorStream recs) n) ∧
    (topKeys (genreStream recs) n).Pairwise (fun g1 g2 =>
      streamWeight (genreStream recs) g2 ≤ streamWeight (genreStream recs) g1) ∧
    (topKeys (authorStream recs) n).Pairwise (fun a1 a2 =>
      streamWeight (authorStream recs) a2 ≤ streamWeight (authorStream recs) a1) ∧
    (topKeys (genreStream recs) n).Pairwise (fun g1 g2 =>
      streamWeight (genreStream recs) g1 = streamWeight (genreStream recs) g2 →
      [g1, g2].Sublist (firstOcc ((genreStream recs).map (fun p => p.1)))) ∧
    (topKeys (authorStream recs) n).Pairwise (fun a1 a2 =>
      streamWeight (authorStream recs) a1 = streamWeight (authorStream recs) a2 →
      [a1, a2].Sublist (firstOcc ((authorStream recs).map (fun p => p.1)))) ∧
    (topKeys (genreStream recs) n).length =
      min n (firstOcc ((genreStream recs).map (fun p => p.1))).length ∧
    (topKeys (authorStream recs) n).length =
      min n (firstOcc ((authorStream recs).map (fun p => p.1))).length ∧
    (∀ g ∈ topKeys (genreStream recs) n, g ∈ (genreStream recs).map (fun p => p.1)) ∧
    (∀ a ∈ topKeys (authorStream recs) n, a ∈ (authorStream recs).map (fun p => p.1)) ∧
    (∀ g, g ∈ (genreStream recs).map (fun p => p.1) → g ∉ topKeys (genreStream recs) n →
      ∀ g2 ∈ topKeys (genreStream recs) n,
        streamWeight (genreStream recs) g ≤ streamWeight (genreStream recs) g2) ∧
    (∀ a, a ∈ (authorStream recs).map (fun p => p.1) → a ∉ topKeys (authorStream recs) n →
      ∀ a2 ∈ topKeys (authorStream recs) n,
        streamWeight (authorStream recs) a ≤ streamWeight (authorStream recs) a2) ∧
    genreStream (recs ++ [⟨uid, bid, rat, none, auth⟩]) = genreStream recs ∧
    authorStream (recs ++ [⟨uid, bid, rat, cats, none⟩]) = authorStream recs := by
  refine ⟨?_, topKeys_sorted _ n, topKeys_sorted _ n, topKeys_ties _ n, topKeys_ties _ n,
    topKeys_length _ n, topKeys_length _ n, topKeys_mem _ n, topKeys_mem _ n,
    topKeys_complete _ n, topKeys_complete _ n, ?_, ?_⟩
  · rw [getUserTopGenresAndAuthors, counter_eq_specTable, counter_eq_specTable]
    rfl
  · simp [genreStream]
  · simp [authorStream]

/-- Profile-extraction instance of the amended claim at a one-record history. -/
theorem profile_extraction_spec_witness :
    getUserTopGenresAndAuthors [] 1 =
      (topKeys (genreStream []) 1, topKeys (authorStream []) 1) ∧
    (topKeys (genreStream []) 1).Pairwise (fun g1 g2 =>
      streamWeight (genreStream []) g2 ≤ streamWeight (genreStream []) g1) ∧
    (topKeys (authorStream []) 1).Pairwise (fun a1 a2 =>
      streamWeight (authorStream []) a2 ≤ streamWeight (authorStream []) a1) ∧
    (topKeys (genreStream []) 1).Pairwise (fun g1 g2 =>
      streamWeight (genreStream []) g1 = streamWeight (genreStream []) g2 →
      [g1, g2].Sublist (firstOcc ((genreStream []).map (fun p => p.1)))) ∧
    (topKeys (authorStream []) 1).Pairwise (fun a1 a2 =>
      streamWeight (authorStream []) a1 = streamWeight (authorStream []) a2 →
      [a1, a2].Sublist (firstOcc ((authorStream []).map (fun p => p.1)))) ∧
    (topKeys (genreStream []) 1).length =
      min 1 (firstOcc ((genreStream []).map (fun p => p.1))).length ∧
    (topKeys (authorStream []) 1).length =
      min 1 (firstOcc ((authorStream []).map (fun p => p.1))).length ∧
    (∀ g ∈ topKeys (genreStream []) 1, g ∈ (genreStream []).map (fun p => p.1)) ∧
    (∀ a ∈ topKeys (authorStream []) 1, a ∈ (authorStream []).map (fun p => p.1)) ∧
    (∀ g, g ∈ (genreStream []).map (fun p => p.1) → g ∉ topKeys (genreStream []) 1 →
      ∀ g2 ∈ topKeys (genreStream []) 1,
        streamWeight (genreStream []) g ≤ streamWeight (genreStream []) g2) ∧
    (∀ a, a ∈ (authorStream []).map (fun p => p.1) → a ∉ topKeys (authorStream []) 1 →
      ∀ a2 ∈ topKeys (authorStream []) 1,
        streamWeight (authorStream []) a ≤ streamWeight (authorStream []) a2) ∧
    genreStream ([] ++ [⟨ str "u", str "X", some 3, none, some []⟩]) = genreStream [] ∧
    authorStream ([] ++ [⟨ str "u", str "X", some 3, some [], none⟩]) = authorStream [] :=
  profile_extraction_spec [] 1 (str "u") (str "X") (some 3) (some []) (some [])

/-- Mapping everything to 0 sums to 0. -/
theorem sum_map_zero {α : Type} : ∀ (l : List α), (l.map (fun _ => (0 : Rat))).sum = 0 := by
  intro l
  induction l with
  | nil => rfl
  | cons x t ih => simp [ih]

/-- C10: a rating record that carries genre metadata but no rating field
contributes weight 0 without erroring — its lower-cased genre strings are still
inserted into the aggregation, each with accumulated weight 0, and such
zero-weight entries occupy top-N profile slots: a user whose only record lacks
a rating still gets a non-empty genre profile whose every key has accumulated
weight 0. -/
theorem zero_weight_entries_fill_profile (uid bid : Str) (gs as0 : List Str)
    (recs : List RatingRecord) (n : Nat) (hn : 0 < n) (hgs : gs ≠ []) :
    genreStream (recs ++ [⟨uid, bid, none, some gs, some as0⟩]) =
      genreStream recs ++ gs.map (fun g => (pyLower g, 0)) ∧
    (∀ g, cntLookup (buildCounter (genreStream [⟨uid, bid, none, some gs, some as0⟩])) g =
      if g ∈ gs.map pyLower then some 0 else none) ∧
    (getUserTopGenresAndAuthors [⟨uid, bid, none, some gs, some as0⟩] n).1 ≠ [] ∧
    (∀ g, streamWeight (genreStream [⟨uid, bid, none, some gs, some as0⟩]) g = 0) := by
  have hstream : genreStream [⟨uid, bid, none, some gs, some as0⟩] =
      gs.map (fun g => (pyLower g, 0)) := by
    simp [genreStream]
  have hkeys : (genreStream [⟨uid, bid, none, some gs, some as0⟩]).map (fun p => p.1) =
      gs.map pyLower := by
    rw [hstream, List.map_map]
    rfl
  have hW : ∀ g, streamWeight (genreStream [⟨uid, bid, none, some gs, some as0⟩]) g = 0 := by
    intro g
    rw [streamWeight, hstream, List.filter_map]
    rw [List.map_map]
    rw [show ((fun p : Str × Rat => p.2) ∘ fun g => (pyLower g, (0 : Rat))) =
      fun _ => (0 : Rat) from rfl]
    exact sum_map_zero _
  refine ⟨?_, ?_, ?_, hW⟩
  · rw [genreStream, List.flatMap_append]
    show genreStream recs ++ genreStream [⟨uid, bid, none, some gs, some as0⟩] =
      genreStream recs ++ gs.map (fun g => (pyLower g, 0))
    rw [hstream]
  · intro g
    rw [counter_eq_specTable, specTable, cntLookup_map]
    have hcond : (g ∈ firstOcc ((genreStream [⟨uid, bid, none, some gs, some as0⟩]).map
        (fun p => p.1))) ↔ g ∈ gs.map pyLower := by
      rw [mem_firstOcc, hkeys]
    by_cases hg : g ∈ gs.map pyLower
    · rw [if_pos (hcond.mpr hg), if_pos hg, hW g]
    · rw [if_neg (fun hc => hg (hcond.mp hc)), if_neg hg]
  · have h1 : (getUserTopGenresAndAuthors [⟨uid, bid, none, some gs, some as0⟩] n).1 =
        topKeys (genreStream [⟨uid, bid, none, some gs, some as0⟩]) n := by
      show (mostCommon (buildCounter _) n).map _ = _
      rw [counter_eq_specTable]
      rfl
    rw [h1]
    have hkpos : 0 < (firstOcc ((genreStream [⟨uid, bid, none, some gs, some as0⟩]).map
        (fun p => p.1))).length := by
      rw [hkeys]
      cases gs with
      | nil => exact absurd rfl hgs
      | cons g0 t => simp [firstOcc]
    refine List.ne_nil_of_length_pos ?_
    rw [topKeys_length]
    omega

/-- Zero-weight instance: one record with a genre and no rating; top-1. -/
theorem zero_weight_entries_fill_profile_witness :
    genreStream ([] ++ [⟨ str "u", str "X", none, some [ str "Gothic"], some []⟩]) =
      genreStream [] ++ [ str "Gothic"].map (fun g => (pyLower g, 0)) ∧
    (∀ g, cntLookup (buildCounter
      (genreStream [⟨ str "u", str "X", none, some [ str "Gothic"], some []⟩])) g =
      if g ∈ [ str "Gothic"].map pyLower then some 0 else none) ∧
    (getUserTopGenresAndAuthors [⟨ str "u", str "X", none, some [ str "Gothic"], some []⟩] 1).1
      ≠ [] ∧
    (∀ g, streamWeight
      (genreStream [⟨ str "u", str "X", none, some [ str "Gothic"], some []⟩]) g = 0) :=
  zero_weight_entries_fill_profile (str "u") (str "X") [ str "Gothic"] [] [] 1
    (by decide) (by decide)
